import Mathlib

/-!
Shallow embedding of `travel-backup-script.py`.

Python strings are modelled as `List Char` (`Str`), Python dicts of
environment variables as association lists with unique keys (`Env`,
lookup `envGet`, assignment `envSet`).  Python truthiness of an
optional string argument is `optTruthy`.  The three functions of the
script — `build_repo`, `redact_env` and `main` — are translated
definition by definition; the external world (filesystem existence
checks, the `.env` file contents, `shutil.which`, and the outcome of
`subprocess.run`) is an explicit `World` record, and `main` returns a
`MainResult` recording the exit code, whether `subprocess.run` was
invoked, and the diagnostic items printed in verbose/dry-run mode.
-/

abbrev Str := List Char

/-- Python `s.rstrip('/')`: remove trailing `'/'` characters. -/
def rstripSlash (s : Str) : Str :=
  (s.reverse.dropWhile (fun c => c = '/')).reverse

/-- Python `s.strip('/')`: remove leading and trailing `'/'` characters. -/
def stripSlash (s : Str) : Str :=
  ((s.dropWhile (fun c => c = '/')).reverse.dropWhile (fun c => c = '/')).reverse

/-- Python `"/".join(parts)`. -/
def joinSlash : List Str → Str
  | [] => []
  | [s] => s
  | s :: rest => s ++ '/' :: joinSlash rest

/-- Python `s.split('/')`: the slash-separated segments of a string
(used to state the "no empty path segments" property). -/
def splitOnSlash : Str → List Str
  | [] => [[]]
  | c :: rest =>
    if c = '/' then [] :: splitOnSlash rest
    else
      match splitOnSlash rest with
      | [] => [[c]]
      | s :: ss => (c :: s) :: ss

/-- `build_repo(endpoint, bucket, prefix)` from the script:
`parts = [f"s3:{endpoint.rstrip('/')}"]`, append `bucket.strip("/")`
when `bucket` is truthy, append `prefix.strip("/")` when the prefix is
truthy, and return `"/".join(parts)`. -/
def build_repo (endpoint bucket pfx : Str) : Str :=
  joinSlash (("s3:".toList ++ rstripSlash endpoint) ::
    ((if bucket ≠ [] then [stripSlash bucket] else []) ++
     (if pfx ≠ [] then [stripSlash pfx] else [])))

/-- A Python dict of environment variables: an association list whose
keys are unique (`os.environ` and its copies never hold a key twice). -/
abbrev Env := List (Str × Str)

/-- Python dict lookup `e.get(k)` (`none` when the key is absent). -/
def envGet : Env → Str → Option Str
  | [], _ => none
  | (k', v') :: rest, k => if k' = k then some v' else envGet rest k

/-- Python dict assignment `e[k] = v`: replaces the value of an
existing key in place, otherwise appends a new entry. -/
def envSet : Env → Str → Str → Env
  | [], k, v => [(k, v)]
  | (k', v') :: rest, k, v =>
    if k' = k then (k, v) :: rest else (k', v') :: envSet rest k v

/-- The Secret-Key Set of `redact_env`:
`("AWS_SECRET_ACCESS_KEY", "RESTIC_PASSWORD", "AWS_SECRET_KEY")`. -/
def secretKeys : List Str :=
  ["AWS_SECRET_ACCESS_KEY".toList, "RESTIC_PASSWORD".toList, "AWS_SECRET_KEY".toList]

/-- The fixed redaction marker `"***REDACTED***"`. -/
def redactMarker : Str := "***REDACTED***".toList

/-- `redact_env(env)` from the script: a copy of the dict in which every
Secret-Key Set key that is present with a truthy (non-empty) value is
reassigned to the redaction marker. -/
def redact_env (e : Env) : Env :=
  e.map (fun kv => if kv.1 ∈ secretKeys ∧ kv.2 ≠ [] then (kv.1, redactMarker) else kv)

/-- `strHead pat s` is Python `s.startswith(pat)`. -/
def strHead : Str → Str → Bool
  | [], _ => true
  | _ :: _, [] => false
  | c :: pat, d :: s => c == d && strHead pat s

/-- The name filter of the diagnostic loop in `main`:
`k.startswith("AWS_") or k.startswith("RESTIC_") or k in ("WASABI_ENDPOINT",)`. -/
def displayKey (k : Str) : Bool :=
  strHead "AWS_".toList k || strHead "RESTIC_".toList k || k == "WASABI_ENDPOINT".toList

/-- The `(key, value)` pairs printed by the diagnostic loop
`for k, v in redact_env(env).items(): if <name filter>: print(f"  {k}={v}")`. -/
def displayItems (e : Env) : List (Str × Str) :=
  (redact_env e).filter (fun kv => displayKey kv.1)

/-- Truthiness of an optional Python string (`None` and `""` are falsy). -/
def optTruthy : Option Str → Bool
  | none => false
  | some v => !v.isEmpty

/-- The parsed command-line arguments, after `argparse` has filled in
defaults: `source` is required; `bucket`, the three credential flags and
`repository` default to `None`; `endpoint` and `pfx` (the `--prefix`
flag) carry their resolved default values. -/
structure Args where
  source : Str
  bucket : Option Str
  endpoint : Str
  pfx : Str
  access_key : Option Str
  secret_key : Option Str
  password : Option Str
  repository : Option Str
  dry_run : Bool
  verbose : Bool

/-- The external world `main` interacts with: whether `args.env_file`
exists, the key/value pairs `load_dotenv` would read from it, the
ambient `os.environ`, whether `args.source` exists, whether
`shutil.which("restic")` succeeds, and the outcome of
`subprocess.run` (`none` models the exception path, `some rc` a run
that completed with exit status `rc`). -/
structure World where
  envFileExists : Bool
  dotenvPairs : List (Str × Str)
  ambientEnv : Env
  sourceExists : Bool
  resticOnPath : Bool
  runResult : Option Int

/-- What a run of `main` did: its return value `code`, whether
`subprocess.run` was invoked (`ran`), and the diagnostic items printed
when verbose or dry-run (`none` when the diagnostic block was skipped). -/
structure MainResult where
  code : Int
  ran : Bool
  diag : Option (List (Str × Str))
deriving DecidableEq

/-- `load_dotenv`: each pair of the settings file is loaded into the
environment only when its key is not already present (python-dotenv's
default `override=False`). -/
def loadDotenv : Env → List (Str × Str) → Env
  | e, [] => e
  | e, (k, v) :: rest =>
    loadDotenv (if envGet e k = none then envSet e k v else e) rest

/-- The ambient environment after the optional
`if os.path.exists(args.env_file): load_dotenv(args.env_file)` step. -/
def ambientAfterLoad (w : World) : Env :=
  if w.envFileExists then loadDotenv w.ambientEnv w.dotenvPairs else w.ambientEnv

/-- The repository-string choice of `main`: a truthy `--repository` is
used verbatim; otherwise a truthy `--bucket` is required and the string
is built by `build_repo`; otherwise validation fails (`none`). -/
def chooseRepo (a : Args) : Option Str :=
  if optTruthy a.repository then a.repository
  else if optTruthy a.bucket then
    some (build_repo a.endpoint (a.bucket.getD []) a.pfx)
  else none

def rpKey : Str := "RESTIC_PASSWORD".toList

def akKey : Str := "AWS_ACCESS_KEY_ID".toList

def skKey : Str := "AWS_SECRET_ACCESS_KEY".toList

/-- One CLI credential override: `if value: env[key] = value`. -/
def applyOne (e : Env) (k : Str) : Option Str → Env
  | none => e
  | some v => if v = [] then e else envSet e k v

/-- The three CLI overrides of `main`, in source order
(`--password`, `--access-key`, `--secret-key`). -/
def applyOverrides (a : Args) (e : Env) : Env :=
  applyOne (applyOne (applyOne e rpKey a.password) akKey a.access_key) skKey a.secret_key

/-- The effective environment `env` of `main`: a copy of the ambient
environment (after the `.env` load), with truthy CLI credential values
assigned over it. -/
def effectiveEnv (a : Args) (w : World) : Env :=
  applyOverrides a (ambientAfterLoad w)

/-- The Required-Variable Set checked by `main`. -/
def requiredVars : List Str := [rpKey, akKey, skKey]

/-- The `missing` list of `main`: required variables whose effective
value is absent or empty (`if not env.get(var)`). -/
def missingVars (e : Env) : List Str :=
  requiredVars.filter (fun k => !optTruthy (envGet e k))

/-- `main(argv)` from the script, as a function of the parsed arguments
and the external world.  Mirrors the source order: `.env` load, source
existence check (exit 2), repository choice (exit 2 when no truthy
`--repository` and no truthy `--bucket`), effective environment,
required-variable check (exit 2), `shutil.which("restic")` check
(exit 3), diagnostics when verbose or dry-run, dry-run return 0,
`subprocess.run` (exit 4 on exception, else the engine's own status). -/
def mainFn (a : Args) (w : World) : MainResult :=
  if w.sourceExists = false then ⟨2, false, none⟩
  else
    match chooseRepo a with
    | none => ⟨2, false, none⟩
    | some _ =>
      let env := effectiveEnv a w
      if missingVars env ≠ [] then ⟨2, false, none⟩
      else if w.resticOnPath = false then ⟨3, false, none⟩
      else
        let d : Option (List (Str × Str)) :=
          if a.verbose || a.dry_run then some (displayItems env) else none
        if a.dry_run then ⟨0, false, d⟩
        else
          match w.runResult with
          | none => ⟨4, true, d⟩
          | some rc => ⟨rc, true, d⟩

/-- The display value the specification promises for unset keys. -/
def notSetVal : Str := "not set".toList

/-- Formalization of the claim that every filtered key with an absent or
empty effective value appears in the display output with the explicit
value `"not set"`. -/
def emptyKeysReportedNotSet : Prop :=
  ∀ (e : Env) (k : Str), displayKey k = true →
    (envGet e k = none ∨ envGet e k = some []) →
    (k, notSetVal) ∈ displayItems e

/-- Formalization of the claim that for every triple with non-empty
endpoint the built address has exactly one scheme-colon prefix (it
begins with the scheme token and a colon), no empty slash-separated
path segment, and degenerates to scheme-colon-endpoint (trailing
slashes stripped) when bucket and prefix are both empty. -/
def buildRepoClaim : Prop :=
  ∀ e b p : Str, e ≠ [] →
    (∃ rest, build_repo e b p = "s3:".toList ++ rest) ∧
    (∀ seg ∈ splitOnSlash (build_repo e b p), seg ≠ []) ∧
    (b = [] → p = [] → build_repo e b p = "s3:".toList ++ rstripSlash e)

/-- A world with no `.env` file, an empty ambient environment, an
existing source path, restic on the search path, and an engine run
that exits 0. -/
def wEmpty : World :=
  { envFileExists := false, dotenvPairs := [], ambientEnv := [],
    sourceExists := true, resticOnPath := true, runResult := some 0 }

/-- `wEmpty` with a missing source path. -/
def wNoSrc : World := { wEmpty with sourceExists := false }

/-- `wEmpty` with an engine run that exits 5. -/
def wRun5 : World := { wEmpty with runResult := some 5 }

/-- A world whose ambient environment already holds a repository
password. -/
def wAmb : World := { wEmpty with ambientEnv := [(rpKey, "ambpw".toList)] }

/-- The arguments of the C9 scenario: `--source ./photos --bucket trips
--prefix 2024 --endpoint s3.example.com`, with all three credentials
supplied on the command line. -/
def argsCli : Args :=
  { source := "./photos".toList, bucket := some "trips".toList,
    endpoint := "s3.example.com".toList, pfx := "2024".toList,
    access_key := some "AK".toList, secret_key := some "SK".toList,
    password := some "PW".toList, repository := none,
    dry_run := false, verbose := false }

/-- The C9 scenario arguments with `--dry-run` added. -/
def argsDry : Args := { argsCli with dry_run := true }

/-- Arguments that supply every credential flag as the empty string. -/
def argsEmptyCli : Args :=
  { argsCli with access_key := some [], secret_key := some [], password := some [] }

/-- Arguments with an explicit `--repository` and no `--bucket`. -/
def argsRepoOnly : Args :=
  { argsCli with bucket := none, repository := some "s3:example.com/mybucket".toList }

/-- Arguments with neither `--repository` nor `--bucket`. -/
def argsNoBucket : Args := { argsRepoOnly with repository := none }

/-- An environment holding one filtered key with an empty value. -/
def envReg : Env := [("AWS_REGION".toList, [])]

theorem envGet_envSet_self (e : Env) (k v : Str) :
    envGet (envSet e k v) k = some v := by
  induction e with
  | nil => simp [envSet, envGet]
  | cons kv rest ih =>
    obtain ⟨k1, v1⟩ := kv
    by_cases h : k1 = k
    · simp [envSet, envGet, h]
    · simp [envSet, envGet, h, ih]

theorem envGet_envSet_ne (e : Env) (k v k' : Str) (h : k ≠ k') :
    envGet (envSet e k v) k' = envGet e k' := by
  induction e with
  | nil => simp [envSet, envGet, h]
  | cons kv rest ih =>
    obtain ⟨k1, v1⟩ := kv
    by_cases h1 : k1 = k
    · simp [envSet, envGet, h1, h]
    · simp [envSet, envGet, h1, ih]

theorem applyOne_some_nil (e : Env) (k : Str) : applyOne e k (some []) = e := rfl

theorem envGet_applyOne_same (e : Env) (k v : Str) (hv : v ≠ []) :
    envGet (applyOne e k (some v)) k = some v := by
  simp [applyOne, hv, envGet_envSet_self]

theorem envGet_applyOne_ne (e : Env) (k k' : Str) (o : Option Str) (h : k ≠ k') :
    envGet (applyOne e k o) k' = envGet e k' := by
  cases o with
  | none => rfl
  | some v =>
    by_cases hv : v = []
    · simp [applyOne, hv]
    · simp [applyOne, hv, envGet_envSet_ne e k v k' h]

theorem optTruthy_some_ne (v : Str) (h : v ≠ []) : optTruthy (some v) = true := by
  cases v with
  | nil => exact absurd rfl h
  | cons c t => rfl

theorem effEnv_rp (a : Args) (w : World) (v : Str)
    (h : a.password = some v) (hv : v ≠ []) :
    envGet (effectiveEnv a w) rpKey = some v := by
  unfold effectiveEnv applyOverrides
  rw [envGet_applyOne_ne _ _ _ _ (by decide : skKey ≠ rpKey),
    envGet_applyOne_ne _ _ _ _ (by decide : akKey ≠ rpKey), h,
    envGet_applyOne_same _ _ _ hv]

theorem effEnv_ak (a : Args) (w : World) (v : Str)
    (h : a.access_key = some v) (hv : v ≠ []) :
    envGet (effectiveEnv a w) akKey = some v := by
  unfold effectiveEnv applyOverrides
  rw [envGet_applyOne_ne _ _ _ _ (by decide : skKey ≠ akKey), h,
    envGet_applyOne_same _ _ _ hv]

theorem effEnv_sk (a : Args) (w : World) (v : Str)
    (h : a.secret_key = some v) (hv : v ≠ []) :
    envGet (effectiveEnv a w) skKey = some v := by
  unfold effectiveEnv applyOverrides
  rw [h, envGet_applyOne_same _ _ _ hv]

theorem missingVars_of_cli (a : Args) (w : World) (vp va vs : Str)
    (hp : a.password = some vp) (hpne : vp ≠ [])
    (ha : a.access_key = some va) (hane : va ≠ [])
    (hs : a.secret_key = some vs) (hsne : vs ≠ []) :
    missingVars (effectiveEnv a w) = [] := by
  have h1 := effEnv_rp a w vp hp hpne
  have h2 := effEnv_ak a w va ha hane
  have h3 := effEnv_sk a w vs hs hsne
  simp [missingVars, requiredVars, List.filter, h1, h2, h3,
    optTruthy_some_ne _ hpne, optTruthy_some_ne _ hane, optTruthy_some_ne _ hsne]

/-- C1: for every construction of the effective environment, a
CLI-supplied (truthy) credential value — `--password`, `--access-key`
or `--secret-key` — is applied after the ambient/file layer is fixed,
so it is the value found in the effective environment for the
corresponding variable, whatever the ambient environment or the
settings file held for that key. -/
theorem cli_override_wins (a : Args) (w : World) (v : Str) :
    (a.password = some v → v ≠ [] → envGet (effectiveEnv a w) rpKey = some v) ∧
    (a.access_key = some v → v ≠ [] → envGet (effectiveEnv a w) akKey = some v) ∧
    (a.secret_key = some v → v ≠ [] → envGet (effectiveEnv a w) skKey = some v) :=
  ⟨fun h hv => effEnv_rp a w v h hv,
   fun h hv => effEnv_ak a w v h hv,
   fun h hv => effEnv_sk a w v h hv⟩

/-- Witness for C1: with `--password PW` on the command line and an
ambient environment that already holds a different `RESTIC_PASSWORD`,
the effective environment holds the CLI value. -/
theorem cli_override_wins_w :
    envGet (effectiveEnv argsCli wAmb) rpKey = some "PW".toList :=
  (cli_override_wins argsCli wAmb "PW".toList).1 rfl (by decide)

/-- C10: a credential flag supplied as the empty string is not applied:
the effective environment's value for the corresponding variable is
exactly the ambient/file layer's value (absent when that layer lacks
it). -/
theorem empty_cli_override_ignored (a : Args) (w : World) :
    (a.password = some [] →
      envGet (effectiveEnv a w) rpKey = envGet (ambientAfterLoad w) rpKey) ∧
    (a.access_key = some [] →
      envGet (effectiveEnv a w) akKey = envGet (ambientAfterLoad w) akKey) ∧
    (a.secret_key = some [] →
      envGet (effectiveEnv a w) skKey = envGet (ambientAfterLoad w) skKey) := by
  refine ⟨?_, ?_, ?_⟩ <;> intro h
  · unfold effectiveEnv applyOverrides
    rw [envGet_applyOne_ne _ _ _ _ (by decide : skKey ≠ rpKey),
      envGet_applyOne_ne _ _ _ _ (by decide : akKey ≠ rpKey), h, applyOne_some_nil]
  · unfold effectiveEnv applyOverrides
    rw [envGet_applyOne_ne _ _ _ _ (by decide : skKey ≠ akKey), h, applyOne_some_nil,
      envGet_applyOne_ne _ _ _ _ (by decide : rpKey ≠ akKey)]
  · unfold effectiveEnv applyOverrides
    rw [h, applyOne_some_nil,
      envGet_applyOne_ne _ _ _ _ (by decide : akKey ≠ skKey),
      envGet_applyOne_ne _ _ _ _ (by decide : rpKey ≠ skKey)]

/-- Witness for C10: `--password ""` with an ambient password `ambpw`
leaves the ambient value in force. -/
theorem empty_cli_override_ignored_w :
    envGet (effectiveEnv argsEmptyCli wAmb) rpKey = envGet (ambientAfterLoad wAmb) rpKey :=
  (empty_cli_override_ignored argsEmptyCli wAmb).1 rfl

theorem envGet_redact_env (e : Env) (k : Str) :
    envGet (redact_env e) k =
      (envGet e k).map (fun v => if k ∈ secretKeys ∧ v ≠ [] then redactMarker else v) := by
  induction e with
  | nil => rfl
  | cons kv rest ih =>
    obtain ⟨k1, v1⟩ := kv
    simp only [redact_env, List.map_cons] at *
    by_cases hs : k1 ∈ secretKeys ∧ v1 ≠ []
    · rw [if_pos hs]
      by_cases h : k1 = k
      · subst h
        simp only [envGet, if_pos rfl]
        simp [hs]
      · simp only [envGet, if_neg h]
        exact ih
    · rw [if_neg hs]
      by_cases h : k1 = k
      · subst h
        simp only [envGet, if_pos rfl]
        simp [hs]
      · simp only [envGet, if_neg h]
        exact ih

/-- C4: `redact_env` replaces the value of every Secret-Key Set key
present with a non-empty value by the fixed redaction marker (the
original value is not what that key maps to in the result), and maps
every key outside the Secret-Key Set to its original value unchanged. -/
theorem redact_env_masks (e : Env) (k v : Str) :
    (k ∈ secretKeys → envGet e k = some v → v ≠ [] →
      envGet (redact_env e) k = some redactMarker) ∧
    (k ∉ secretKeys → envGet (redact_env e) k = envGet e k) := by
  constructor
  · intro hk hv hne
    rw [envGet_redact_env, hv]
    simp [hk, hne]
  · intro hk
    rw [envGet_redact_env]
    cases envGet e k with
    | none => rfl
    | some v' => simp [hk]

/-- Witness for C4: a non-empty password is masked, and a
non-secret key passes through unchanged. -/
theorem redact_env_masks_w :
    envGet (redact_env [(rpKey, "pw".toList)]) rpKey = some redactMarker ∧
    envGet (redact_env [(rpKey, "pw".toList)]) akKey = envGet [(rpKey, "pw".toList)] akKey :=
  ⟨(redact_env_masks [(rpKey, "pw".toList)] rpKey "pw".toList).1 (by decide) rfl (by decide),
   (redact_env_masks [(rpKey, "pw".toList)] akKey "pw".toList).2 (by decide)⟩

theorem envGet_none_not_mem (e : Env) (k : Str) :
    envGet e k = none → ∀ v, (k, v) ∉ e := by
  induction e with
  | nil => intro _ v hv; exact absurd hv (List.not_mem_nil _)
  | cons kv rest ih =>
    obtain ⟨k1, v1⟩ := kv
    intro h v hv
    by_cases hk : k1 = k
    · simp [envGet, hk] at h
    · simp only [envGet, if_neg hk] at h
      rcases List.mem_cons.mp hv with h1 | h2
      · exact hk (congrArg Prod.fst h1).symm
      · exact ih h v h2

theorem redact_env_key_mem (e : Env) (k v : Str) (h : (k, v) ∈ redact_env e) :
    ∃ w, (k, w) ∈ e := by
  rw [redact_env, List.mem_map] at h
  obtain ⟨⟨k0, v0⟩, hmem, heq⟩ := h
  by_cases hc : k0 ∈ secretKeys ∧ v0 ≠ []
  · rw [if_pos hc, Prod.mk.injEq] at heq
    exact ⟨v0, heq.1 ▸ hmem⟩
  · rw [if_neg hc, Prod.mk.injEq] at heq
    exact ⟨v0, heq.1 ▸ hmem⟩

/-- C5 as claimed: every name-filtered key that is absent or holds the
empty value is reported in the display output with the explicit value
`"not set"`.  This is false of the code: the diagnostic loop iterates
only over the entries of the (redacted) environment and prints each as
`key=value`, so an absent key produces no line at all. -/
theorem not_set_counterexample : ¬ emptyKeysReportedNotSet := fun h =>
  absurd (h [] rpKey (by decide) (Or.inl rfl)) (by decide)

/-- C5 amended: a name-filtered key present with an empty value is
displayed (with the empty value, not a "not set" marker), while a key
absent from the environment is silently omitted from the display
output. -/
theorem empty_keys_displayed_empty (e : Env) (k : Str) :
    (displayKey k = true → (k, ([] : Str)) ∈ e → (k, ([] : Str)) ∈ displayItems e) ∧
    (envGet e k = none → ∀ v, (k, v) ∉ displayItems e) := by
  constructor
  · intro hk hm
    have hr : (k, ([] : Str)) ∈ redact_env e := by
      have := List.mem_map_of_mem
        (fun kv : Str × Str =>
          if kv.1 ∈ secretKeys ∧ kv.2 ≠ [] then (kv.1, redactMarker) else kv) hm
      simpa [redact_env] using this
    exact List.mem_filter.mpr ⟨hr, hk⟩
  · intro hnone v hmem
    have hr : (k, v) ∈ redact_env e := (List.mem_filter.mp hmem).1
    obtain ⟨v0, hv0⟩ := redact_env_key_mem e k v hr
    exact envGet_none_not_mem e k hnone v0 hv0

/-- Witness for the amended C5: `AWS_REGION=` (empty) is displayed with
an empty value, and the absent `RESTIC_PASSWORD` key yields no display
entry. -/
theorem empty_keys_displayed_empty_w :
    ("AWS_REGION".toList, ([] : Str)) ∈ displayItems envReg ∧
    ∀ v, (rpKey, v) ∉ displayItems envReg :=
  ⟨(empty_keys_displayed_empty envReg "AWS_REGION".toList).1 (by decide) (by decide),
   (empty_keys_displayed_empty envReg rpKey).2 (by decide)⟩

/-- C7: when the source path does not exist, `main` returns the
validation exit code 2 without ever invoking the subprocess (and before
printing any diagnostics). -/
theorem missing_source_validation (a : Args) (w : World)
    (h : w.sourceExists = false) : mainFn a w = ⟨2, false, none⟩ := by
  simp [mainFn, h]

/-- Witness for C7: a concrete run against a missing source path. -/
theorem missing_source_validation_w : mainFn argsCli wNoSrc = ⟨2, false, none⟩ :=
  missing_source_validation argsCli wNoSrc rfl

/-- C6: a truthy `--repository` value is used verbatim as the
repository string, whatever `--bucket`, `--endpoint` and `--prefix`
hold (so the bucket requirement is waived); without a truthy
`--repository`, a missing (or empty) `--bucket` makes `main` exit with
the validation code 2 and no subprocess. -/
theorem repository_waives_bucket (a : Args) (w : World) :
    (∀ r, a.repository = some r → r ≠ [] → chooseRepo a = some r) ∧
    (optTruthy a.repository = false → optTruthy a.bucket = false →
      mainFn a w = ⟨2, false, none⟩) := by
  constructor
  · intro r hr hne
    have ht : optTruthy a.repository = true := by
      rw [hr]; exact optTruthy_some_ne r hne
    unfold chooseRepo
    rw [if_pos ht]
    exact hr
  · intro h1 h2
    have hcr : chooseRepo a = none := by simp [chooseRepo, h1, h2]
    cases hs : w.sourceExists
    · simp [mainFn, hs]
    · simp [mainFn, hs, hcr]

/-- Witness for C6: `--repository s3:example.com/mybucket` with no
bucket is taken verbatim; with neither flag, exit code 2. -/
theorem repository_waives_bucket_w :
    chooseRepo argsRepoOnly = some "s3:example.com/mybucket".toList ∧
    mainFn argsNoBucket wEmpty = ⟨2, false, none⟩ :=
  ⟨(repository_waives_bucket argsRepoOnly wEmpty).1 _ rfl (by decide),
   (repository_waives_bucket argsNoBucket wEmpty).2 (by decide) (by decide)⟩

/-- C3: the exit-code taxonomy of `main`: 2 for each validation error
(missing source path, no truthy repository/bucket, missing required
environment variables), 3 when the restic binary is not on the search
path, 0 on dry-run, 4 when the subprocess fails to start, and otherwise
the external engine's own exit status verbatim. -/
theorem exit_code_taxonomy (a : Args) (w : World) :
    (w.sourceExists = false → mainFn a w = ⟨2, false, none⟩) ∧
    (chooseRepo a = none → mainFn a w = ⟨2, false, none⟩) ∧
    (missingVars (effectiveEnv a w) ≠ [] → mainFn a w = ⟨2, false, none⟩) ∧
    (w.sourceExists = true → chooseRepo a ≠ none →
      missingVars (effectiveEnv a w) = [] → w.resticOnPath = false →
      mainFn a w = ⟨3, false, none⟩) ∧
    (w.sourceExists = true → chooseRepo a ≠ none →
      missingVars (effectiveEnv a w) = [] → w.resticOnPath = true →
      a.dry_run = true → (mainFn a w).code = 0 ∧ (mainFn a w).ran = false) ∧
    (∀ rc : Int, w.sourceExists = true → chooseRepo a ≠ none →
      missingVars (effectiveEnv a w) = [] → w.resticOnPath = true →
      a.dry_run = false → w.runResult = some rc →
      (mainFn a w).code = rc ∧ (mainFn a w).ran = true) ∧
    (w.sourceExists = true → chooseRepo a ≠ none →
      missingVars (effectiveEnv a w) = [] → w.resticOnPath = true →
      a.dry_run = false → w.runResult = none → (mainFn a w).code = 4) := by
  refine ⟨?_, ?_, ?_, ?_, ?_, ?_, ?_⟩
  · intro h; simp [mainFn, h]
  · intro h
    cases hs : w.sourceExists
    · simp [mainFn, hs]
    · simp [mainFn, hs, h]
  · intro h
    cases hs : w.sourceExists
    · simp [mainFn, hs]
    · cases hcr : chooseRepo a
      · simp [mainFn, hs, hcr]
      · simp [mainFn, hs, hcr, h]
  · intro hs hcr hm hrp
    obtain ⟨r, hr⟩ := Option.ne_none_iff_exists'.mp hcr
    simp [mainFn, hs, hr, hm, hrp]
  · intro hs hcr hm hrp hd
    obtain ⟨r, hr⟩ := Option.ne_none_iff_exists'.mp hcr
    simp [mainFn, hs, hr, hm, hrp, hd]
  · intro rc hs hcr hm hrp hd hrr
    obtain ⟨r, hr⟩ := Option.ne_none_iff_exists'.mp hcr
    simp [mainFn, hs, hr, hm, hrp, hd, hrr]
  · intro hs hcr hm hrp hd hrr
    obtain ⟨r, hr⟩ := Option.ne_none_iff_exists'.mp hcr
    simp [mainFn, hs, hr, hm, hrp, hd, hrr]

/-- Witness for C3: a completed engine run with status 5 is propagated
verbatim. -/
theorem exit_code_taxonomy_w :
    (mainFn argsCli wRun5).code = 5 ∧ (mainFn argsCli wRun5).ran = true :=
  (exit_code_taxonomy argsCli wRun5).2.2.2.2.2.1 5 rfl (by decide) (by decide) rfl rfl rfl

/-- C8: with `--dry-run` set and every validation passing (source
exists, a repository string was chosen, no required variable missing,
restic on the search path), `main` spawns no subprocess, prints the
redacted diagnostics (the display items of the redacted effective
environment), and returns exit code 0. -/
theorem dry_run_no_subprocess (a : Args) (w : World) (r : Str)
    (hs : w.sourceExists = true) (hcr : chooseRepo a = some r)
    (hm : missingVars (effectiveEnv a w) = []) (hrp : w.resticOnPath = true)
    (hd : a.dry_run = true) :
    mainFn a w = ⟨0, false, some (displayItems (effectiveEnv a w))⟩ := by
  simp [mainFn, hs, hcr, hm, hrp, hd]

/-- Witness for C8: the C9 scenario with `--dry-run` added. -/
theorem dry_run_no_subprocess_w :
    mainFn argsDry wEmpty = ⟨0, false, some (displayItems (effectiveEnv argsDry wEmpty))⟩ :=
  dry_run_no_subprocess argsDry wEmpty "s3:s3.example.com/trips/2024".toList
    rfl (by decide) (by decide) rfl rfl

/-- C9: for `--source ./photos --bucket trips --prefix 2024
--endpoint s3.example.com` with all required credentials supplied, the
built repository address is exactly `s3:s3.example.com/trips/2024`,
and when the engine runs to completion the tool's exit code equals the
engine's own exit status. -/
theorem scenario_repo_and_exit (w : World) (rc : Int)
    (hs : w.sourceExists = true) (hrp : w.resticOnPath = true)
    (hr : w.runResult = some rc) :
    chooseRepo argsCli = some "s3:s3.example.com/trips/2024".toList ∧
    (mainFn argsCli w).code = rc := by
  have hcr : chooseRepo argsCli = some "s3:s3.example.com/trips/2024".toList := by decide
  have hm : missingVars (effectiveEnv argsCli w) = [] :=
    missingVars_of_cli argsCli w "PW".toList "AK".toList "SK".toList
      rfl (by decide) rfl (by decide) rfl (by decide)
  refine ⟨hcr, ?_⟩
  have hd : argsCli.dry_run = false := rfl
  have hv : argsCli.verbose = false := rfl
  simp [mainFn, hs, hcr, hm, hrp, hr, hd, hv]

/-- Witness for C9: the scenario run against a world whose engine
exits 5. -/
theorem scenario_repo_and_exit_w :
    chooseRepo argsCli = some "s3:s3.example.com/trips/2024".toList ∧
    (mainFn argsCli wRun5).code = 5 :=
  scenario_repo_and_exit wRun5 5 rfl rfl rfl

theorem splitOnSlash_no_slash (s : Str) (h : '/' ∉ s) : splitOnSlash s = [s] := by
  induction s with
  | nil => rfl
  | cons c rest ih =>
    have hc : ¬ c = '/' := fun hc => h (List.mem_cons.mpr (Or.inl hc.symm))
    have hrest : '/' ∉ rest := fun hm => h (List.mem_cons_of_mem _ hm)
    simp [splitOnSlash, hc, ih hrest]

theorem splitOnSlash_append (a t : Str) (h : '/' ∉ a) :
    splitOnSlash (a ++ '/' :: t) = a :: splitOnSlash t := by
  induction a with
  | nil => simp [splitOnSlash]
  | cons c a' ih =>
    have hc : ¬ c = '/' := fun hc => h (List.mem_cons.mpr (Or.inl hc.symm))
    have ha' : '/' ∉ a' := fun hm => h (List.mem_cons_of_mem _ hm)
    simp [splitOnSlash, hc, ih ha']

theorem joinSlash_cons_cons (a b : Str) (rest : List Str) :
    joinSlash (a :: b :: rest) = a ++ '/' :: joinSlash (b :: rest) := rfl

theorem joinSlash_head (a : Str) (rest : List Str) :
    ∃ t, joinSlash (a :: rest) = a ++ t := by
  cases rest with
  | nil => exact ⟨[], by simp [joinSlash]⟩
  | cons b r => exact ⟨'/' :: joinSlash (b :: r), rfl⟩

theorem splitOnSlash_joinSlash (parts : List Str) (hne : parts ≠ [])
    (h : ∀ s ∈ parts, '/' ∉ s) : splitOnSlash (joinSlash parts) = parts := by
  induction parts with
  | nil => exact absurd rfl hne
  | cons a rest ih =>
    cases rest with
    | nil =>
      simp only [joinSlash]
      exact splitOnSlash_no_slash a (h a (List.mem_cons_self a []))
    | cons b rest' =>
      rw [joinSlash_cons_cons, splitOnSlash_append a _ (h a (List.mem_cons_self a _)),
        ih (by simp) (fun s hs => h s (List.mem_cons_of_mem _ hs))]

theorem dropWhile_slash_id (s : Str) (h : '/' ∉ s) :
    s.dropWhile (fun c => c = '/') = s := by
  cases s with
  | nil => rfl
  | cons c rest =>
    have hc : ¬ c = '/' := fun hc => h (List.mem_cons.mpr (Or.inl hc.symm))
    simp [List.dropWhile_cons, hc]

theorem rstripSlash_id (s : Str) (h : '/' ∉ s) : rstripSlash s = s := by
  unfold rstripSlash
  rw [dropWhile_slash_id _ (by simpa using h), List.reverse_reverse]

theorem stripSlash_id (s : Str) (h : '/' ∉ s) : stripSlash s = s := by
  unfold stripSlash
  rw [dropWhile_slash_id _ h, dropWhile_slash_id _ (by simpa using h),
    List.reverse_reverse]

/-- C2 as claimed: false of the code.  The bucket `"/"` is truthy (so
the requirement that bucket and prefix be empty to get the degenerate
form does not apply), but `"/".strip("/")` is the empty string, which
`build_repo` appends as a path segment: `build_repo("h", "/", "")`
is `"s3:h/"`, whose segment list has an empty final segment. -/
theorem build_repo_claim_false : ¬ buildRepoClaim := by
  intro h
  have h2 := (h "h".toList "/".toList [] (by decide)).2.1
  exact h2 [] (by decide) rfl

/-- C2 amended: for inputs containing no `'/'` (in particular every
host, bucket name and pfx that is a single path component), the built
address starts with the scheme token and colon (a string has exactly
one prefix, so this is the "exactly one scheme-colon prefix" reading),
splits into slash-separated segments none of which is empty, and with
bucket and prefix both empty it is exactly the scheme token, colon,
and the endpoint with trailing slashes stripped. -/
theorem build_repo_segments (e b p : Str) (he : e ≠ [])
    (hes : '/' ∉ e) (hbs : '/' ∉ b) (hps : '/' ∉ p) :
    (∃ rest, build_repo e b p = "s3:".toList ++ rest) ∧
    (∀ seg ∈ splitOnSlash (build_repo e b p), seg ≠ []) ∧
    (b = [] → p = [] → build_repo e b p = "s3:".toList ++ rstripSlash e) := by
  have hre : rstripSlash e = e := rstripSlash_id e hes
  have hsb : stripSlash b = b := stripSlash_id b hbs
  have hsp : stripSlash p = p := stripSlash_id p hps
  refine ⟨?_, ?_, ?_⟩
  · unfold build_repo
    obtain ⟨t, ht⟩ := joinSlash_head ("s3:".toList ++ rstripSlash e)
      ((if b ≠ [] then [stripSlash b] else []) ++ (if p ≠ [] then [stripSlash p] else []))
    rw [ht, List.append_assoc]
    exact ⟨rstripSlash e ++ t, rfl⟩
  · have hall : ∀ s ∈ (("s3:".toList ++ e) ::
        ((if b ≠ [] then [b] else []) ++ (if p ≠ [] then [p] else []))), '/' ∉ s := by
      intro s hs
      rcases List.mem_cons.mp hs with h1 | h2
      · subst h1
        intro hm
        rcases List.mem_append.mp hm with h3 | h4
        · exact absurd h3 (by decide)
        · exact hes h4
      · rcases List.mem_append.mp h2 with h3 | h4
        · by_cases hb : b = []
          · simp [hb] at h3
          · simp [hb] at h3; subst h3; exact hbs
        · by_cases hp : p = []
          · simp [hp] at h4
          · simp [hp] at h4; subst h4; exact hps
    have hsplit : splitOnSlash (build_repo e b p) =
        ("s3:".toList ++ e) ::
          ((if b ≠ [] then [b] else []) ++ (if p ≠ [] then [p] else [])) := by
      unfold build_repo
      rw [hre, hsb, hsp]
      exact splitOnSlash_joinSlash _ (by simp) hall
    intro seg hseg
    rw [hsplit] at hseg
    rcases List.mem_cons.mp hseg with h1 | h2
    · subst h1
      intro hcon
      exact absurd (List.append_eq_nil.mp hcon).1 (by decide)
    · rcases List.mem_append.mp h2 with h3 | h4
      · by_cases hb : b = []
        · simp [hb] at h3
        · simp [hb] at h3; subst h3; exact hb
      · by_cases hp : p = []
        · simp [hp] at h4
        · simp [hp] at h4; subst h4; exact hp
  · intro hb hp
    unfold build_repo
    simp [hb, hp, joinSlash]

/-- Witness for the amended C2, at a slash-free triple. -/
theorem build_repo_segments_w :
    (∃ rest, build_repo "h".toList "b".toList "c".toList = "s3:".toList ++ rest) ∧
    (∀ seg ∈ splitOnSlash (build_repo "h".toList "b".toList "c".toList), seg ≠ []) ∧
    ("b".toList = ([] : Str) → "c".toList = ([] : Str) →
      build_repo "h".toList "b".toList "c".toList = "s3:".toList ++ rstripSlash "h".toList) :=
  build_repo_segments "h".toList "b".toList "c".toList
    (by decide) (by decide) (by decide) (by decide)
